import Mathlib

/-!
Verification development for the vidquery-aichat backend: a shallow
embedding, over `List Char` text, of the transcript chunking and ingestion
pipeline (`src/unnamed/part_000`, functions `addYTVideoToVectorStore` and the
retrieval tools), the webhook endpoint (`src/unnamed/part_001`) and the
BrightData scrape trigger (`src/backend/brightdata.js`).

The chunking definitions embed the splitter the source instantiates at
`new RecursiveCharacterTextSplitter(chunkSize := 1000, chunkOverlap := 200)`
from the @langchain/textsplitters package, specialised to that call site:
default separators (paragraph, line, space, empty), keepSeparator true
(the default for this class, so merged pieces are joined with the empty
string and the separator characters stay inside the splits).
-/

namespace VidQuery

/-- JS `text.includes(sep)` for a separator given as a character list. -/
def includesSub (sep : List Char) : List Char → Bool
  | [] => sep.isPrefixOf []
  | c :: rest => sep.isPrefixOf (c :: rest) || includesSub sep rest

/-- JS `text.split(lookahead regex of sep)` as `splitOnSeparator` performs it
when keepSeparator is set: the text is cut immediately before every position
(other than position zero) at which the separator begins, so the separator
characters remain at the head of the following piece.  `acc` is the current
piece, reversed. -/
def splitKeepAux (sep : List Char) : List Char → List Char → List (List Char)
  | acc, [] => [acc.reverse]
  | acc, c :: rest =>
    if !acc.isEmpty && sep.isPrefixOf (c :: rest) then
      acc.reverse :: splitKeepAux sep [c] rest
    else
      splitKeepAux sep (c :: acc) rest

/-- The `splitOnSeparator` method of the splitter: lookahead split on a
non-empty separator (keepSeparator true), `text.split("")` into single
characters for the empty separator, then `filter((s) => s !== "")`. -/
def splitOnSeparator (sep : List Char) (text : List Char) : List (List Char) :=
  if sep.isEmpty then
    ((text.map fun c => [c]).filter fun s => !s.isEmpty)
  else
    ((splitKeepAux sep [] text).filter fun s => !s.isEmpty)

/-- JS `String.prototype.trim` on a character list (the splitter only ever
trims around ASCII transcript text, where trim removes exactly the
whitespace characters `Char.isWhitespace` recognises). -/
def trimChars (l : List Char) : List Char :=
  ((l.dropWhile Char.isWhitespace).reverse.dropWhile Char.isWhitespace).reverse

/-- The `joinDocs` method at separator `""` (keepSeparator true): join the
accumulated pieces, trim, and drop the chunk when nothing remains. -/
def joinDocs (currentDoc : List (List Char)) : Option (List Char) :=
  let text := trimChars currentDoc.flatten
  if text.isEmpty then none else some text

/-- The `while` loop inside `mergeSplits` that pops pieces off the front of
`currentDoc` after a chunk is emitted: pop while the running total exceeds
the overlap, or the incoming piece of length `len` would still overflow the
chunk size.  The separator is `""`, so pieces contribute only their own
lengths. -/
def shiftLoop (chunkSize chunkOverlap len : Nat) :
    List (List Char) → Nat → List (List Char) × Nat
  | [], total => ([], total)
  | d :: ds, total =>
    if total > chunkOverlap ∨ (total + len > chunkSize ∧ total > 0) then
      shiftLoop chunkSize chunkOverlap len ds (total - d.length)
    else (d :: ds, total)

/-- The `for` loop of `mergeSplits` (separator `""`): accumulate pieces into
`currentDoc` until the next piece would overflow `chunkSize`, then emit the
joined-and-trimmed chunk (unless it trims to nothing) and keep an overlap of
pieces via `shiftLoop`; at the end the remaining pieces form the final
chunk. -/
def mergeLoop (chunkSize chunkOverlap : Nat) :
    List (List Char) → List (List Char) → Nat → List (List Char)
  | [], currentDoc, _total => (joinDocs currentDoc).toList
  | d :: rest, currentDoc, total =>
    if total + d.length > chunkSize then
      if currentDoc.isEmpty then
        mergeLoop chunkSize chunkOverlap rest (currentDoc ++ [d]) (total + d.length)
      else
        (joinDocs currentDoc).toList ++
          mergeLoop chunkSize chunkOverlap rest
            ((shiftLoop chunkSize chunkOverlap d.length currentDoc total).1 ++ [d])
            ((shiftLoop chunkSize chunkOverlap d.length currentDoc total).2 + d.length)
    else
      mergeLoop chunkSize chunkOverlap rest (currentDoc ++ [d]) (total + d.length)

/-- The `mergeSplits` method at separator `""`. -/
def mergeSplits (chunkSize chunkOverlap : Nat) (splits : List (List Char)) :
    List (List Char) :=
  mergeLoop chunkSize chunkOverlap splits [] 0

/-- The `for` loop of `_splitText` over the pieces returned by
`splitOnSeparator`: pieces shorter than `chunkSize` collect into
`goodSplits` and are merged; a piece at least `chunkSize` long first flushes
the collected pieces, then is handed to the recursion on the remaining
separators (`recur`), or emitted as-is when no separators remain. -/
def processSplits (chunkSize chunkOverlap : Nat)
    (recur : Option (List Char → List (List Char))) :
    List (List Char) → List (List Char) → List (List Char)
  | goodSplits, [] =>
    if goodSplits.isEmpty then [] else mergeSplits chunkSize chunkOverlap goodSplits
  | goodSplits, s :: rest =>
    if s.length < chunkSize then
      processSplits chunkSize chunkOverlap recur (goodSplits ++ [s]) rest
    else
      (if goodSplits.isEmpty then []
       else mergeSplits chunkSize chunkOverlap goodSplits) ++
        (match recur with
         | none => [s]
         | some f => f s) ++
        processSplits chunkSize chunkOverlap recur [] rest

/-- The paragraph separator, first of the default separator list. -/
def sepParagraph : List Char := ['\n', '\n']

/-- The line separator, second of the default separator list. -/
def sepLine : List Char := ['\n']

/-- The word separator, third of the default separator list. -/
def sepSpace : List Char := [' ']

/-- `_splitText` once the first three default separators have been passed
over: the remaining separator is `""`, which always matches, splits the text
into single characters, and sets no further separator list, so every piece
goes through the merge. -/
def splitTextLevel3 (chunkSize chunkOverlap : Nat) (text : List Char) :
    List (List Char) :=
  processSplits chunkSize chunkOverlap none [] (splitOnSeparator [] text)

/-- `_splitText` at separator list `[" ", ""]`: split on spaces when the text
has one, else fall through to the character level. -/
def splitTextLevel2 (chunkSize chunkOverlap : Nat) (text : List Char) :
    List (List Char) :=
  if includesSub sepSpace text then
    processSplits chunkSize chunkOverlap (some (splitTextLevel3 chunkSize chunkOverlap))
      [] (splitOnSeparator sepSpace text)
  else splitTextLevel3 chunkSize chunkOverlap text

/-- `_splitText` at separator list `["\n", " ", ""]`. -/
def splitTextLevel1 (chunkSize chunkOverlap : Nat) (text : List Char) :
    List (List Char) :=
  if includesSub sepLine text then
    processSplits chunkSize chunkOverlap (some (splitTextLevel2 chunkSize chunkOverlap))
      [] (splitOnSeparator sepLine text)
  else splitTextLevel2 chunkSize chunkOverlap text

/-- `splitText` of the recursive character splitter at the full default
separator list `["\n\n", "\n", " ", ""]`. -/
def splitText (chunkSize chunkOverlap : Nat) (text : List Char) :
    List (List Char) :=
  if includesSub sepParagraph text then
    processSplits chunkSize chunkOverlap (some (splitTextLevel1 chunkSize chunkOverlap))
      [] (splitOnSeparator sepParagraph text)
  else splitTextLevel1 chunkSize chunkOverlap text

/-- The splitter exactly as `addYTVideoToVectorStore` constructs it:
`new RecursiveCharacterTextSplitter(chunkSize := 1000, chunkOverlap := 200)`. -/
def ytSplitText (text : List Char) : List (List Char) :=
  splitText 1000 200 text

/-! ## Documents and the vector store

A stored chunk carries its text and the metadata object the ingestion path
attaches, `{ video_id }` (the loc field `createDocuments` adds is not
modelled: nothing in the repository reads it).  The PGVectorStore is
modelled as the list of stored documents; its similarity ranking is an
external service, taken as a parameter `rank` that orders the candidate
documents for a query, while the metadata filtering, the LIMIT `k` and the
append-only writes are the contract the store is used through
(`similaritySearch(query, k, filter)` and `addDocuments`). -/

/-- The metadata object `{ video_id }`; the field is absent when the webhook
item carried no `video_id`. -/
structure DocMetadata where
  video_id : Option String
deriving DecidableEq, Repr

/-- A langchain `Document`: page content plus metadata. -/
structure Document where
  pageContent : List Char
  metadata : DocMetadata
deriving DecidableEq, Repr

/-- `splitter.splitDocuments(docs)` for the single document
`new Document(pageContent := transcript, metadata := { video_id })` built by
`addYTVideoToVectorStore`: each chunk of the transcript becomes a document
carrying the parent metadata. -/
def splitDocuments (transcript : List Char) (metadata : DocMetadata) :
    List Document :=
  (ytSplitText transcript).map fun chunk =>
    { pageContent := chunk, metadata := metadata }

/-- `vectorStore.addDocuments(chunks)`: the store keeps every previously
stored row and appends the new chunks. -/
def addDocuments (store : List Document) (docs : List Document) :
    List Document :=
  store ++ docs

/-- A similarity ranking `rank` is a selection: it returns only documents
that are among its candidates.  This is the one assumption made about the
external vector index. -/
def RankSelects (rank : List Char → List Document → List Document) : Prop :=
  ∀ query docs, ∀ d ∈ rank query docs, d ∈ docs

/-- The metadata filter argument of `similaritySearch`: absent, or
`{ video_id: v }`, which matches rows whose stored `video_id` equals `v`. -/
def matchesFilter (filter : Option String) (d : Document) : Bool :=
  match filter with
  | none => true
  | some vid => d.metadata.video_id == some vid

/-- `vectorStore.similaritySearch(query, k, filter)`: the rows matching the
filter, ranked by the store for the query, cut to the top `k`. -/
def similaritySearch (rank : List Char → List Document → List Document)
    (store : List Document) (query : List Char) (k : Nat)
    (filter : Option String) : List Document :=
  (rank query (store.filter (matchesFilter filter))).take k

/-- The ranking that returns candidates in store order; used to instantiate
theorems at concrete stores. -/
def storeOrderRank : List Char → List Document → List Document :=
  fun _query docs => docs

/-- The local `retrievedDocs` of the `retrieve` tool:
`vectorStore.similaritySearch(query, 3, { video_id: videoId })`. -/
def retrieveDocs (rank : List Char → List Document → List Document)
    (store : List Document) (query : List Char) (videoId : String) :
    List Document :=
  similaritySearch rank store query 3 (some videoId)

/-- The `retrieve` tool result: the page contents of the matched documents
joined by the separator `"\n "` of `.join("\n ")` (a newline followed by a
space). -/
def retrieve (rank : List Char → List Document → List Document)
    (store : List Document) (query : List Char) (videoId : String) :
    List Char :=
  List.intercalate ['\n', ' ']
    ((retrieveDocs rank store query videoId).map Document.pageContent)

/-- The local `retrievedDocs` of the `retrieveSimilarVideos` tool:
`vectorStore.similaritySearch(query, 30)`, with no filter. -/
def retrieveSimilarVideosDocs
    (rank : List Char → List Document → List Document)
    (store : List Document) (query : List Char) : List Document :=
  similaritySearch rank store query 30 none

/-- The id sequence `retrievedDocs.map((doc) => doc.metadata.video_id)` the
`retrieveSimilarVideos` tool builds (the source then serialises it by
joining with `"\n "`). -/
def retrieveSimilarVideosIds
    (rank : List Char → List Document → List Document)
    (store : List Document) (query : List Char) : List (Option String) :=
  (retrieveSimilarVideosDocs rank store query).map fun d => d.metadata.video_id

/-! ## The BrightData scrape trigger

`triggerYoutubeVideoScrape` performs `fetch` and `response.json()` inside a
try block whose catch logs the error and falls off the end of the function
(resolving with `undefined`).  The outcome of the external interaction is a
parameter: the fetch can reject (network error), and otherwise yields a
response with a status code and a body that either fails to parse as JSON
or parses to an object whose `snapshot_id` field may be absent.  `fetch`
never rejects on a non-2xx status, so the status code does not influence
the control flow.  A JS exception is modelled by `Except.error`; the value
an async function resolves with, by `Except.ok` (`none` standing for
`undefined`). -/

/-- What `response.json()` does on the response body. -/
inductive BodyParse where
  | malformed
  | json (snapshot_id : Option String)
deriving DecidableEq, Repr

/-- The outcome of the `fetch` call to the trigger endpoint. -/
inductive FetchOutcome where
  | networkError
  | response (status : Nat) (body : BodyParse)
deriving DecidableEq, Repr

/-- The JS exceptions the modelled code can raise. -/
inductive JsError where
  | typeError
  | fetchFailed
  | parseError
  | serviceError
deriving DecidableEq, Repr

/-- The try block of `triggerYoutubeVideoScrape`: await the fetch, await
`response.json()`, return `result.snapshot_id`. -/
def triggerScrapeTryBlock : FetchOutcome → Except JsError (Option String)
  | .networkError => .error .fetchFailed
  | .response _ .malformed => .error .parseError
  | .response _ (.json sid) => .ok sid

/-- `triggerYoutubeVideoScrape(url)` as a function of the external outcome:
the catch block logs the error and the function resolves with `undefined`. -/
def triggerYoutubeVideoScrape (outcome : FetchOutcome) :
    Except JsError (Option String) :=
  match triggerScrapeTryBlock outcome with
  | .ok v => .ok v
  | .error _ => .ok none

/-! ## Ingestion and the webhook endpoint

`addYTVideoToVectorStore(videoData)` logs `videoData.video_id` (throwing
before the try block when `videoData` itself is not an object, modelled as
`none`), then inside try destructures the fields, splits and stores the
chunks.  A missing `transcript` makes the splitter throw inside the try
block; embedding or storage failure of `addDocuments` is a parameter
`IngestOutcome`.  The catch block logs and returns, leaving the store
unchanged.  `POST /webhook` awaits `Promise.all` over the items and then
sends `"OK"`; a rejected item rejects the whole handler and no `"OK"` is
sent.  The concurrent writes are modelled as sequential appends in item
order (the spec promises no ordering between items). -/

/-- One element of the webhook body: the fields of
`{ video_id, transcript }`, either possibly absent. -/
structure VideoData where
  video_id : Option String
  transcript : Option (List Char)
deriving DecidableEq, Repr

/-- Whether the embedding computation and vector-store write inside
`addDocuments` succeed for this call. -/
inductive IngestOutcome where
  | success
  | embedFailure
  | storeFailure
deriving DecidableEq, Repr

/-- The try block of `addYTVideoToVectorStore`: destructure, build the
parent document, split it into chunks, and `await vectorStore.addDocuments`. -/
def ingestTryBlock (outcome : IngestOutcome) (store : List Document)
    (videoData : VideoData) : Except JsError (List Document) :=
  match videoData.transcript with
  | none => .error .typeError
  | some transcript =>
    let chunks := splitDocuments transcript { video_id := videoData.video_id }
    match outcome with
    | .success => .ok (addDocuments store chunks)
    | .embedFailure => .error .serviceError
    | .storeFailure => .error .serviceError

/-- `addYTVideoToVectorStore(videoData)`: the opening
`console.log(..., videoData.video_id)` throws when `videoData` is not an
object; otherwise the try block runs and the catch block swallows its
error, resolving with the store unchanged. -/
def addYTVideoToVectorStore (outcome : IngestOutcome) (store : List Document)
    (videoData : Option VideoData) : Except JsError (List Document) :=
  match videoData with
  | none => .error .typeError
  | some v =>
    match ingestTryBlock outcome store v with
    | .ok newStore => .ok newStore
    | .error _ => .ok store

/-- The awaited `Promise.all(req.body.map(addYTVideoToVectorStore))` of the
webhook handler: every item is ingested; one rejection rejects the whole
batch. -/
def runWebhookBatch :
    List (Option VideoData × IngestOutcome) → List Document →
    Except JsError (List Document)
  | [], store => .ok store
  | (v, o) :: rest, store =>
    match addYTVideoToVectorStore o store v with
    | .ok newStore => runWebhookBatch rest newStore
    | .error e => .error e

/-- The `POST /webhook` handler: await the batch, then `res.send("OK")`. -/
def webhookPost (body : List (Option VideoData × IngestOutcome))
    (store : List Document) : Except JsError (List Document × String) :=
  match runWebhookBatch body store with
  | .ok newStore => .ok (newStore, "OK")
  | .error e => .error e

/-! ## The fixed-window chunking the spec describes

Stated from the specification text, for comparison with `ytSplitText`:
windows of fixed length 1000 with fixed overlap 200 between consecutive
windows (so consecutive window starts are 800 apart), preserving original
character order, the last window possibly shorter. -/

/-- Modelled from the spec: the fixed windows of length 1000 at stride 800
covering the text. -/
def fixedWindows (text : List Char) : List (List Char) :=
  if text.length ≤ 1000 then [text]
  else text.take 1000 :: fixedWindows (text.drop 800)
termination_by text.length
decreasing_by
  simp only [List.length_drop]
  omega

/-- Modelled from the spec: the chunks ingestion is claimed to store — the
fixed 1000-char windows with 200 overlap, none for an empty transcript. -/
def specFixedWindows (text : List Char) : List (List Char) :=
  if text.isEmpty then [] else fixedWindows text

/-! ## Chunking lemmas

For transcripts with no whitespace character the splitter reaches the
single-character level and its merge loop produces exactly the fixed
1000-char windows at stride 800 the spec describes.  `fixedFrom cur rest`
generalises `fixedWindows` to a partially filled current window `cur`
followed by the unread characters `rest`; it mirrors the state of the merge
loop. -/

/-- The fixed windows produced from a partially accumulated window `cur`
and remaining characters `rest`: emit once 1000 characters are available,
keep the last 200 as overlap. -/
def fixedFrom (cur rest : List Char) : List (List Char) :=
  if cur.length + rest.length ≤ 1000 then [cur ++ rest]
  else
    (cur ++ rest.take (1000 - cur.length)) ::
      fixedFrom ((cur ++ rest.take (1000 - cur.length)).drop 800)
        (rest.drop (1000 - cur.length))
termination_by cur.length + rest.length
decreasing_by
  simp only [List.length_drop, List.length_append, List.length_take]
  omega

theorem dropWhile_eq_self_of_forall (p : Char → Bool) (l : List Char)
    (h : ∀ c ∈ l, p c = false) : l.dropWhile p = l := by
  cases l with
  | nil => rfl
  | cons c cs => simp [List.dropWhile_cons, h c (List.mem_cons_self c cs)]

theorem trimChars_eq_self (l : List Char)
    (h : ∀ c ∈ l, c.isWhitespace = false) : trimChars l = l := by
  unfold trimChars
  rw [dropWhile_eq_self_of_forall _ _ h,
    dropWhile_eq_self_of_forall _ _ (fun c hc => h c (List.mem_reverse.mp hc)),
    List.reverse_reverse]

theorem flatten_map_singleton (l : List Char) :
    (l.map fun c => [c]).flatten = l := by
  induction l with
  | nil => rfl
  | cons c cs ih => simp [ih]

theorem filter_map_singleton (l : List Char) :
    ((l.map fun c => [c]).filter fun s => !s.isEmpty) = l.map fun c => [c] := by
  refine List.filter_eq_self.mpr fun a ha => ?_
  obtain ⟨c, _, rfl⟩ := List.mem_map.mp ha
  rfl

theorem includesSub_eq_false (c : Char) (s text : List Char)
    (h : c ∉ text) : includesSub (c :: s) text = false := by
  induction text with
  | nil => rfl
  | cons t ts ih =>
    have hct : (c == t) = false := by
      simp only [beq_eq_false_iff_ne]
      intro he
      exact h (he ▸ List.mem_cons_self t ts)
    simp [includesSub, List.isPrefixOf, hct,
      ih fun hm => h (List.mem_cons_of_mem _ hm)]

theorem joinDocs_map_singleton (w : List Char) (hw : w ≠ [])
    (hws : ∀ c ∈ w, c.isWhitespace = false) :
    joinDocs (w.map fun c => [c]) = some w := by
  unfold joinDocs
  rw [flatten_map_singleton, trimChars_eq_self w hws]
  simp [hw]

theorem shiftLoop_single (w : List Char) (h2 : 200 ≤ w.length)
    (h3 : w.length ≤ 1000) :
    shiftLoop 1000 200 1 (w.map fun c => [c]) w.length =
      ((w.drop (w.length - 200)).map fun c => [c], 200) := by
  induction w with
  | nil => simp at h2
  | cons c cs ih =>
    by_cases hlen : (c :: cs).length = 200
    · rw [List.map_cons]
      rw [shiftLoop]
      rw [if_neg (by omega)]
      rw [hlen]
      simp
    · have h201 : 201 ≤ (c :: cs).length := by omega
      rw [List.map_cons]
      rw [shiftLoop]
      rw [if_pos (by simp at h201 ⊢; omega)]
      have hcs2 : 200 ≤ cs.length := by simp at h201; omega
      have hcs3 : cs.length ≤ 1000 := by simp at h3; omega
      have harg : (c :: cs).length - [c].length = cs.length := by simp
      rw [harg, ih hcs2 hcs3]
      have hdrop : (c :: cs).drop ((c :: cs).length - 200) =
          cs.drop (cs.length - 200) := by
        have : (c :: cs).length - 200 = (cs.length - 200) + 1 := by
          simp only [List.length_cons]; omega
        rw [this, List.drop_succ_cons]
      rw [hdrop]

theorem fixedFrom_eq (cur rest : List Char) :
    fixedFrom cur rest =
      if cur.length + rest.length ≤ 1000 then [cur ++ rest]
      else (cur ++ rest.take (1000 - cur.length)) ::
        fixedFrom ((cur ++ rest.take (1000 - cur.length)).drop 800)
          (rest.drop (1000 - cur.length)) := by
  conv_lhs => rw [fixedFrom]

theorem fixedFrom_cons (w : List Char) (d : Char) (rest : List Char)
    (h : w.length < 1000) :
    fixedFrom w (d :: rest) = fixedFrom (w ++ [d]) rest := by
  conv_lhs => rw [fixedFrom_eq]
  conv_rhs => rw [fixedFrom_eq]
  have hidx : 1000 - w.length = (999 - w.length) + 1 := by omega
  have hidx2 : 1000 - (w ++ [d]).length = 999 - w.length := by
    simp only [List.length_append, List.length_cons, List.length_nil]
    omega
  by_cases hsmall : w.length + (d :: rest).length ≤ 1000
  · rw [if_pos hsmall,
      if_pos (by
        simp only [List.length_cons] at hsmall
        simp only [List.length_append, List.length_cons, List.length_nil]
        omega)]
    simp
  · rw [if_neg hsmall,
      if_neg (by
        simp only [List.length_cons] at hsmall
        simp only [List.length_append, List.length_cons, List.length_nil]
        omega)]
    rw [hidx, hidx2, List.take_succ_cons, List.drop_succ_cons]
    simp [List.append_assoc]

theorem mergeLoop_single (rest : List Char) : ∀ (w : List Char),
    w ≠ [] → w.length ≤ 1000 →
    (∀ c ∈ w, c.isWhitespace = false) →
    (∀ c ∈ rest, c.isWhitespace = false) →
    mergeLoop 1000 200 (rest.map fun c => [c]) (w.map fun c => [c])
        w.length =
      fixedFrom w rest := by
  induction rest with
  | nil =>
    intro w hw hlen hws _
    rw [List.map_nil, mergeLoop, joinDocs_map_singleton w hw hws]
    rw [fixedFrom_eq, if_pos (by simpa using hlen)]
    simp
  | cons d rest ih =>
    intro w hw hlen hws hrs
    have hd : d.isWhitespace = false := hrs d (List.mem_cons_self d rest)
    have hrs2 : ∀ c ∈ rest, c.isWhitespace = false :=
      fun c hc => hrs c (List.mem_cons_of_mem _ hc)
    rw [List.map_cons, mergeLoop]
    simp only [List.length_singleton]
    by_cases h1000 : w.length < 1000
    · rw [if_neg (by omega)]
      have hmap : (w.map fun c => [c]) ++ [[d]] =
          (w ++ [d]).map fun c => [c] := by simp
      have hlen2 : w.length + 1 = (w ++ [d]).length := by simp
      rw [hmap, hlen2,
        ih (w ++ [d]) (by simp) (by simp; omega)
          (by
            intro c hc
            rcases List.mem_append.mp hc with h | h
            · exact hws c h
            · rw [List.mem_singleton.mp h]; exact hd)
          hrs2]
      exact (fixedFrom_cons w d rest h1000).symm
    · have hw1000 : w.length = 1000 := by omega
      rw [if_pos (by omega)]
      rw [if_neg (by
        simp only [List.isEmpty_eq_true, List.map_eq_nil_iff]
        exact hw)]
      rw [joinDocs_map_singleton w hw hws]
      have hshift : shiftLoop 1000 200 1 (w.map fun c => [c]) w.length =
          ((w.drop 800).map fun c => [c], 200) := by
        have h0 := shiftLoop_single w (by omega) (by omega)
        rw [hw1000] at h0
        rw [hw1000]
        simpa using h0
      rw [hshift]
      have hmap : ((w.drop 800).map fun c => [c]) ++ [[d]] =
          (w.drop 800 ++ [d]).map fun c => [c] := by simp
      have hlen2 : (200 : Nat) + 1 = (w.drop 800 ++ [d]).length := by
        simp [List.length_drop, hw1000]
      rw [hmap, hlen2,
        ih (w.drop 800 ++ [d]) (by simp) (by simp [List.length_drop, hw1000])
          (by
            intro c hc
            rcases List.mem_append.mp hc with h | h
            · exact hws c (List.mem_of_mem_drop h)
            · rw [List.mem_singleton.mp h]; exact hd)
          hrs2]
      conv_rhs => rw [fixedFrom_eq]
      rw [if_neg (by simp [hw1000]), hw1000]
      norm_num
      rw [fixedFrom_cons (w.drop 800) d rest
        (by simp [List.length_drop, hw1000])]

theorem processSplits_all_small (chunkSize chunkOverlap : Nat)
    (recur : Option (List Char → List (List Char))) :
    ∀ (splits good : List (List Char)),
    (∀ s ∈ splits, s.length < chunkSize) →
    processSplits chunkSize chunkOverlap recur good splits =
      if (good ++ splits).isEmpty then []
      else mergeSplits chunkSize chunkOverlap (good ++ splits) := by
  intro splits
  induction splits with
  | nil => intro good _; simp [processSplits]
  | cons s rest ih =>
    intro good hall
    rw [processSplits.eq_def]
    simp only []
    rw [if_pos (hall s (List.mem_cons_self s rest))]
    rw [ih (good ++ [s]) fun x hx => hall x (List.mem_cons_of_mem _ hx)]
    simp

theorem fixedWindows_eq (text : List Char) :
    fixedWindows text =
      if text.length ≤ 1000 then [text]
      else text.take 1000 :: fixedWindows (text.drop 800) := by
  conv_lhs => rw [fixedWindows]

theorem fixedFrom_eq_fixedWindows : ∀ (n : Nat) (w rest : List Char),
    w.length + rest.length ≤ n → w.length ≤ 1000 →
    fixedFrom w rest = fixedWindows (w ++ rest) := by
  intro n
  induction n with
  | zero =>
    intro w rest hn _
    have hw : w = [] := by
      cases w with
      | nil => rfl
      | cons a as => simp at hn
    have hr : rest = [] := by
      cases rest with
      | nil => rfl
      | cons a as => simp at hn
    subst hw; subst hr
    rw [fixedFrom_eq, fixedWindows_eq]
    simp
  | succ n ih =>
    intro w rest hn hw
    by_cases hsmall : w.length + rest.length ≤ 1000
    · rw [fixedFrom_eq, if_pos hsmall, fixedWindows_eq,
        if_pos (by simp [List.length_append]; omega)]
    · have hbig : 1000 < (w ++ rest).length := by
        simp only [List.length_append]; omega
      rw [fixedFrom_eq, if_neg hsmall, fixedWindows_eq, if_neg (by omega)]
      have htake : (w ++ rest).take 1000 = w ++ rest.take (1000 - w.length) := by
        rw [List.take_append_eq_append_take, List.take_of_length_le hw]
      have hcur : (w ++ rest.take (1000 - w.length)).drop 800 =
          ((w ++ rest).drop 800).take 200 := by
        rw [← htake, List.drop_take]
      have hrest : rest.drop (1000 - w.length) = ((w ++ rest).drop 800).drop 200 := by
        rw [List.drop_drop]
        rw [List.drop_append_eq_append_drop,
          List.drop_eq_nil_of_le (by omega : w.length ≤ 1000)]
        simp
      have hjoin : (w ++ rest.take (1000 - w.length)).drop 800 ++
          rest.drop (1000 - w.length) = (w ++ rest).drop 800 := by
        rw [hcur, hrest, List.take_append_drop]
      rw [htake]
      congr 1
      have hlen1 : ((w ++ rest.take (1000 - w.length)).drop 800).length ≤ 1000 := by
        rw [hcur]
        simp only [List.length_take]
        omega
      have hlen2 : ((w ++ rest.take (1000 - w.length)).drop 800).length +
          (rest.drop (1000 - w.length)).length ≤ n := by
        have : ((w ++ rest.take (1000 - w.length)).drop 800).length +
            (rest.drop (1000 - w.length)).length = ((w ++ rest).drop 800).length := by
          rw [← List.length_append, hjoin]
        rw [this]
        simp only [List.length_drop, List.length_append]
        simp only [List.length_append] at hbig
        omega
      rw [ih _ _ hlen2 hlen1, hjoin]

/-- For a transcript with no whitespace character, the splitter the source
configures produces exactly the fixed 1000-character windows with 200
overlap that the spec describes (and no windows at all for the empty
transcript). -/
theorem ytSplitText_no_ws (text : List Char)
    (h : ∀ c ∈ text, c.isWhitespace = false) :
    ytSplitText text = specFixedWindows text := by
  have hnl : ('\n' : Char) ∉ text := by
    intro hm
    have := h '\n' hm
    simp at this
  have hsp : (' ' : Char) ∉ text := by
    intro hm
    have := h ' ' hm
    simp at this
  have h0 : includesSub sepParagraph text = false := includesSub_eq_false _ _ _ hnl
  have h1 : includesSub sepLine text = false := includesSub_eq_false _ _ _ hnl
  have h2 : includesSub sepSpace text = false := includesSub_eq_false _ _ _ hsp
  rw [ytSplitText, splitText, h0, if_neg (by simp), splitTextLevel1, h1,
    if_neg (by simp), splitTextLevel2, h2, if_neg (by simp), splitTextLevel3]
  rw [show splitOnSeparator [] text =
      (text.map fun c => [c]).filter fun s => !s.isEmpty from rfl,
    filter_map_singleton]
  rw [processSplits_all_small 1000 200 none (text.map fun c => [c]) []
      (by
        intro s hs
        obtain ⟨c, _, rfl⟩ := List.mem_map.mp hs
        norm_num)]
  rw [List.nil_append]
  cases text with
  | nil => simp [specFixedWindows]
  | cons t ts =>
    rw [if_neg (by simp)]
    rw [mergeSplits, List.map_cons, mergeLoop]
    rw [if_neg (by norm_num)]
    have hstep : ([] : List (List Char)) ++ [[t]] = [t].map fun c => [c] := by simp
    rw [hstep, show (0 : Nat) + ([t] : List Char).length = ([t] : List Char).length by simp]
    rw [mergeLoop_single ts [t] (by simp) (by simp)
      (fun c hc => by rw [List.mem_singleton.mp hc]; exact h t (List.mem_cons_self t ts))
      (fun c hc => h c (List.mem_cons_of_mem _ hc))]
    rw [fixedFrom_eq_fixedWindows ((t :: ts).length) [t] ts
      (by simp; omega) (by simp)]
    rw [List.singleton_append]
    rw [specFixedWindows, if_neg (by simp)]

/-! ## Concrete documents used to instantiate theorems -/

/-- A stored chunk of video `"v"` with content `"a"`. -/
def docA : Document := { pageContent := ['a'], metadata := { video_id := some "v" } }

/-- A second stored chunk of the same video `"v"`, content `"b"`. -/
def docB : Document := { pageContent := ['b'], metadata := { video_id := some "v" } }

/-! ## C1 and C10: the scrape trigger on failure -/

/-- C1, counterexample: against a provider answering HTTP 500 (here with a
JSON body that has no snapshot_id field), `triggerYoutubeVideoScrape` does
not fail with any error — it resolves normally, and the resolved job handle
is `undefined`, a falsy value. -/
theorem triggerScrape_http500_resolves_undefined :
    triggerYoutubeVideoScrape (.response 500 (.json none)) = .ok none := rfl

/-- C1 (amended): when the external call fails — the fetch rejects, the
response body is malformed, or the body parses without a snapshot_id —
`triggerYoutubeVideoScrape` does not raise an ExternalServiceError: the
catch block swallows the error and the function resolves with `undefined`,
a falsy job handle, so the caller cannot distinguish "job started" from
"trigger failed" through a raised error.  In particular `fetch` does not
reject on HTTP 500, so the status never forces a failure. -/
theorem triggerScrape_failure_swallowed :
    triggerYoutubeVideoScrape .networkError = .ok none ∧
    (∀ s, triggerYoutubeVideoScrape (.response s .malformed) = .ok none) ∧
    (∀ s, triggerYoutubeVideoScrape (.response s (.json none)) = .ok none) :=
  ⟨rfl, fun _ => rfl, fun _ => rfl⟩

/-- C10: `triggerYoutubeVideoScrape` never rejects: every outcome of the
external interaction resolves with some value; a 2xx-or-otherwise JSON
response resolves with the snapshot_id field of the body (which is
`undefined` when absent); and whenever the try block throws, the function
resolves with `undefined`. -/
theorem triggerScrape_never_rejects (outcome : FetchOutcome) :
    (∃ v, triggerYoutubeVideoScrape outcome = .ok v) ∧
    (∀ s sid, triggerYoutubeVideoScrape (.response s (.json sid)) = .ok sid) ∧
    (∀ e, triggerScrapeTryBlock outcome = .error e →
      triggerYoutubeVideoScrape outcome = .ok none) := by
  refine ⟨?_, fun s sid => rfl, fun e he => ?_⟩
  · cases h : triggerScrapeTryBlock outcome with
    | ok v => exact ⟨v, by simp [triggerYoutubeVideoScrape, h]⟩
    | error e => exact ⟨none, by simp [triggerYoutubeVideoScrape, h]⟩
  · simp [triggerYoutubeVideoScrape, he]

/-! ## C3 and C4: filtered retrieval -/

/-- C3: `retrieve` returns only chunks whose `video_id` metadata equals the
requested identifier, for every ranking the vector store could apply (any
ranking that selects among its candidate rows). -/
theorem retrieve_filters_video_id
    (rank : List Char → List Document → List Document)
    (store : List Document) (query : List Char) (videoId : String)
    (hrank : RankSelects rank) :
    ∀ d ∈ retrieveDocs rank store query videoId,
      d.metadata.video_id = some videoId := by
  intro d hd
  have h1 : d ∈ rank query (store.filter (matchesFilter (some videoId))) :=
    List.mem_of_mem_take hd
  have h2 : d ∈ store.filter (matchesFilter (some videoId)) :=
    hrank query _ d h1
  have h3 := List.of_mem_filter h2
  simpa [matchesFilter] using h3

/-- C3, witness: a concrete retrieval from a one-chunk store for video
`"v"` returns that chunk, whose metadata is `some "v"`. -/
theorem retrieve_filters_video_id_witness :
    docA.metadata.video_id = some "v" :=
  retrieve_filters_video_id storeOrderRank [docA] [] "v"
    (fun _query _docs _d hd => hd) docA (by decide)

/-- C4: `retrieve` asks the store for at most 3 matches and
`retrieveSimilarVideos` for at most 30, so the result lists never exceed
those caps, for every ranking. -/
theorem retrieval_result_caps
    (rank : List Char → List Document → List Document)
    (store : List Document) (query : List Char) (videoId : String) :
    (retrieveDocs rank store query videoId).length ≤ 3 ∧
    (retrieveSimilarVideosDocs rank store query).length ≤ 30 := by
  constructor <;>
    simp [retrieveDocs, retrieveSimilarVideosDocs, similaritySearch,
      List.length_take]

/-! ## C5: the serialised retrieval result -/

/-- C5, counterexample: the `retrieve` tool joins the matched chunks with
the two-character separator `"\n "` of `.join("\n ")`, not with a newline
alone: two chunks `"a"` and `"b"` come back as `"a\n b"`, which differs
from the newline-joined `"a\nb"`. -/
theorem retrieve_join_not_bare_newline :
    retrieve storeOrderRank [docA, docB] [] "v" = ['a', '\n', ' ', 'b'] ∧
    List.intercalate ['\n'] [['a'], ['b']] = ['a', '\n', 'b'] ∧
    (['a', '\n', ' ', 'b'] : List Char) ≠ ['a', '\n', 'b'] := by
  refine ⟨by decide, by decide, by decide⟩

/-- C5 (amended): `retrieve` returns exactly the matched chunks' raw text
joined with the separator `"\n "` (newline followed by one space); no
metadata enters the result, and an empty match list yields the empty
string, not an error. -/
theorem retrieve_joined_output
    (rank : List Char → List Document → List Document)
    (store : List Document) (query : List Char) (videoId : String) :
    retrieve rank store query videoId =
      List.intercalate ['\n', ' ']
        ((retrieveDocs rank store query videoId).map Document.pageContent) ∧
    (retrieveDocs rank store query videoId = [] →
      retrieve rank store query videoId = []) := by
  refine ⟨rfl, fun h => ?_⟩
  simp [retrieve, h, List.intercalate]

/-- C5, witness for the empty-result case: retrieval from an empty store
returns the empty string. -/
theorem retrieve_joined_output_witness :
    retrieve storeOrderRank [] [] "nonexistent_video" = [] :=
  (retrieve_joined_output storeOrderRank [] [] "nonexistent_video").2 rfl

/-! ## C6: similar-video ids -/

/-- C6: `retrieveSimilarVideos` maps each match to its `video_id` metadata,
in match order and without deduplication; concretely, a store holding two
chunks of video `"v"` that both match yields the id twice. -/
theorem similar_videos_ids_in_match_order
    (rank : List Char → List Document → List Document)
    (store : List Document) (query : List Char) :
    retrieveSimilarVideosIds rank store query =
      (retrieveSimilarVideosDocs rank store query).map
        (fun d => d.metadata.video_id) ∧
    retrieveSimilarVideosIds storeOrderRank [docA, docB] [] =
      [some "v", some "v"] :=
  ⟨rfl, by decide⟩

/-! ## C7: ingestion failures are swallowed and the webhook answers OK -/

/-- C7: for every webhook item that is an object (however malformed its
fields) and every embedding and storage outcome, `addYTVideoToVectorStore`
resolves normally; consequently `POST /webhook` on a body of such items
always answers `"OK"`, whatever each item's ingestion outcome.  Concretely,
a batch of one item missing its transcript and one item whose storage write
fails still answers `"OK"` with the store unchanged. -/
theorem webhook_always_ok :
    (∀ (outcome : IngestOutcome) (store : List Document) (v : VideoData),
      ∃ newStore,
        addYTVideoToVectorStore outcome store (some v) = .ok newStore) ∧
    (∀ (body : List (Option VideoData × IngestOutcome))
      (store : List Document),
      (∀ p ∈ body, p.1 ≠ (none : Option VideoData)) →
      ∃ newStore, webhookPost body store = .ok (newStore, "OK")) ∧
    webhookPost
      [(some { video_id := some "v", transcript := none }, .success),
       (some { video_id := some "w", transcript := some ['a'] },
        .storeFailure)] [] = .ok ([], "OK") := by
  have h1 : ∀ (outcome : IngestOutcome) (store : List Document)
      (v : VideoData),
      ∃ newStore,
        addYTVideoToVectorStore outcome store (some v) = .ok newStore := by
    intro outcome store v
    cases h : ingestTryBlock outcome store v with
    | ok s => exact ⟨s, by simp [addYTVideoToVectorStore, h]⟩
    | error e => exact ⟨store, by simp [addYTVideoToVectorStore, h]⟩
  have hrun : ∀ (body : List (Option VideoData × IngestOutcome)),
      (∀ p ∈ body, p.1 ≠ (none : Option VideoData)) →
      ∀ store, ∃ newStore, runWebhookBatch body store = .ok newStore := by
    intro body
    induction body with
    | nil => exact fun _ store => ⟨store, rfl⟩
    | cons p rest ih =>
      intro hall store
      obtain ⟨ov, o⟩ := p
      have hv := hall (ov, o) (List.mem_cons_self _ _)
      cases ov with
      | none => exact absurd rfl hv
      | some v =>
        obtain ⟨s1, hs1⟩ := h1 o store v
        obtain ⟨s2, hs2⟩ := ih (fun q hq => hall q (List.mem_cons_of_mem _ hq)) s1
        exact ⟨s2, by simp [runWebhookBatch, hs1, hs2]⟩
  refine ⟨h1, fun body store hall => ?_, rfl⟩
  obtain ⟨s, hs⟩ := hrun body hall store
  exact ⟨s, by simp [webhookPost, hs]⟩

/-! ## C2: the shape of the stored chunks -/

theorem fixedWindows_of_length_le (text : List Char)
    (h : text.length ≤ 1000) : fixedWindows text = [text] := by
  rw [fixedWindows_eq, if_pos h]

theorem fixedWindows_replicate_big (n : Nat) (hn : 1000 < n) (a : Char) :
    fixedWindows (List.replicate n a) =
      List.replicate 1000 a :: fixedWindows (List.replicate (n - 800) a) := by
  rw [fixedWindows_eq, if_neg (by simp; omega), List.take_replicate,
    List.drop_replicate, Nat.min_eq_left (by omega)]

/-- C2, counterexample: the splitter cuts at word boundaries and trims
whitespace, so chunks are not fixed-length windows of the transcript: the
two-character transcript `"a "` is stored as the single chunk `"a"`, while
the fixed-window description demands the single window `"a "`.  The stored
chunk is not even a length-preserving reordering — the space is dropped. -/
theorem ingestion_chunk_not_fixed_window :
    addYTVideoToVectorStore .success []
        (some { video_id := some "v", transcript := some ['a', ' '] }) =
      .ok [{ pageContent := ['a'], metadata := { video_id := some "v" } }] ∧
    specFixedWindows ['a', ' '] = [['a', ' ']] ∧
    (['a'] : List Char) ≠ ['a', ' '] := by
  refine ⟨rfl, ?_, by decide⟩
  rw [show specFixedWindows ['a', ' '] = fixedWindows ['a', ' '] from rfl,
    fixedWindows_of_length_le _ (by norm_num)]

/-- C2 (amended): for every transcript containing no whitespace character,
ingestion stores exactly the fixed windows of length 1000 with 200
characters of overlap between consecutive windows (stride 800), in
original character order, the last window possibly shorter; a transcript
containing spaces or newlines is instead cut at those separators and
trimmed, so the fixed-window shape holds only for such separator-free
transcripts.  In particular a whitespace-free 2200-character transcript is
stored as 3 chunks covering characters 0 to 1000, 800 to 1800 and 1600 to
2200. -/
theorem ingestion_fixed_windows_no_ws
    (store : List Document) (transcript : List Char) (videoId : String)
    (h : ∀ c ∈ transcript, c.isWhitespace = false) :
    addYTVideoToVectorStore .success store
        (some { video_id := some videoId, transcript := some transcript }) =
      .ok (store ++ (specFixedWindows transcript).map fun w =>
        { pageContent := w, metadata := { video_id := some videoId } }) := by
  have hsplit := ytSplitText_no_ws transcript h
  have hred : addYTVideoToVectorStore .success store
      (some { video_id := some videoId, transcript := some transcript }) =
      (.ok (store ++ splitDocuments transcript { video_id := some videoId }) :
        Except JsError (List Document)) := rfl
  rw [hred, splitDocuments, hsplit]

/-- C2, witness: ingesting the 2200-character whitespace-free transcript of
video `"abc12345678"` stores exactly 3 chunks: characters 0 to 1000, 800 to
1800 and 1600 to 2200 of the transcript (here all runs of the letter a). -/
theorem ingestion_2200_char_scenario :
    addYTVideoToVectorStore .success []
        (some { video_id := some "abc12345678",
                transcript := some (List.replicate 2200 'a') }) =
      .ok
        [{ pageContent := List.replicate 1000 'a',
           metadata := { video_id := some "abc12345678" } },
         { pageContent := List.replicate 1000 'a',
           metadata := { video_id := some "abc12345678" } },
         { pageContent := List.replicate 600 'a',
           metadata := { video_id := some "abc12345678" } }] := by
  rw [ingestion_fixed_windows_no_ws [] (List.replicate 2200 'a') "abc12345678"
    (fun c hc => by rw [List.eq_of_mem_replicate hc]; rfl)]
  have e1 := fixedWindows_replicate_big 2200 (by norm_num) 'a'
  have e2 := fixedWindows_replicate_big 1400 (by norm_num) 'a'
  have e3 := fixedWindows_of_length_le (List.replicate 600 'a')
    (by rw [List.length_replicate]; norm_num)
  norm_num at e1 e2
  rw [show specFixedWindows (List.replicate 2200 'a') =
      fixedWindows (List.replicate 2200 'a') from rfl, e1, e2, e3]
  rfl

/-! ## C9: re-ingestion duplicates chunks -/

/-- C9, counterexample: the transcript `" "` is non-empty, yet ingesting it
stores no chunks at all (the merge loop trims its only chunk to the empty
string and drops it), so ingesting it twice leaves the store without any
duplicate — the claim fails for this non-empty transcript. -/
theorem double_ingest_whitespace_no_chunks :
    ([' '] : List Char) ≠ [] ∧
    addYTVideoToVectorStore .success []
        (some { video_id := some "v", transcript := some [' '] }) = .ok [] ∧
    (addYTVideoToVectorStore .success []
        (some { video_id := some "v", transcript := some [' '] })).bind
      (fun s => addYTVideoToVectorStore .success s
        (some { video_id := some "v", transcript := some [' '] })) =
      .ok [] := by
  refine ⟨by decide, rfl, rfl⟩

/-- C9 (amended): ingestion performs no existing-chunk check, so for every
transcript whose chunk list is non-empty (every transcript except those the
splitter reduces to no chunks, such as whitespace-only ones), ingesting the
same webhook item twice appends the same chunk batch twice and the store
ends up holding duplicate chunks. -/
theorem double_ingest_duplicates
    (store : List Document) (transcript : List Char) (videoId : String)
    (h : ytSplitText transcript ≠ []) :
    ∃ s1 s2,
      addYTVideoToVectorStore .success store
          (some { video_id := some videoId, transcript := some transcript }) =
        .ok s1 ∧
      addYTVideoToVectorStore .success s1
          (some { video_id := some videoId, transcript := some transcript }) =
        .ok s2 ∧
      ∃ d, 2 ≤ s2.count d := by
  refine ⟨_, _, rfl, rfl, ?_⟩
  have hch : splitDocuments transcript { video_id := some videoId } ≠ [] := by
    simp only [splitDocuments, ne_eq, List.map_eq_nil_iff]
    exact h
  obtain ⟨d, ds, hd⟩ := List.exists_cons_of_ne_nil hch
  refine ⟨d, ?_⟩
  have hmem : d ∈ splitDocuments transcript { video_id := some videoId } := by
    rw [hd]; exact List.mem_cons_self d ds
  have h1 : 0 < (splitDocuments transcript { video_id := some videoId }).count d :=
    List.count_pos_iff.mpr hmem
  show 2 ≤ ((store ++ splitDocuments transcript { video_id := some videoId }) ++
    splitDocuments transcript { video_id := some videoId }).count d
  rw [List.count_append, List.count_append]
  omega

/-- C9, witness: ingesting the transcript `"ab"` of video `"v"` twice into
an empty store leaves some chunk stored twice. -/
theorem double_ingest_duplicates_witness :
    ∃ s1 s2,
      addYTVideoToVectorStore .success []
          (some { video_id := some "v", transcript := some ['a', 'b'] }) =
        .ok s1 ∧
      addYTVideoToVectorStore .success s1
          (some { video_id := some "v", transcript := some ['a', 'b'] }) =
        .ok s2 ∧
      ∃ d, 2 ≤ s2.count d :=
  double_ingest_duplicates [] ['a', 'b'] "v" (by decide)

/-! ## C8: stored chunks carry the supplied video id -/

/-- C8: a successful ingestion call appends to the store exactly a batch of
chunks, and every appended chunk carries `video_id` metadata equal to the
identifier supplied in the webhook item. -/
theorem ingested_chunks_tagged
    (store : List Document) (transcript : List Char) (videoId : String) :
    ∃ chunks,
      addYTVideoToVectorStore .success store
          (some { video_id := some videoId, transcript := some transcript }) =
        .ok (store ++ chunks) ∧
      ∀ d ∈ chunks, d.metadata.video_id = some videoId := by
  refine ⟨splitDocuments transcript { video_id := some videoId }, rfl, ?_⟩
  intro d hd
  obtain ⟨c, _, rfl⟩ := List.mem_map.mp hd
  rfl

end VidQuery
